import Mathlib

/-!
Verification of the session-synchronization core of the `chatbot` VS Code
extension (sources: `src/src/extension.ts`, `src/src/read_file_data.ts`,
`src/unnamed/part_002`).

Strings are modelled as `List Char`.  External effects (the remote generator,
`fs.readFileSync`, `fs.readdirSync`) are modelled as explicit inputs:
a generator call is an `Except` value, a selected file carries its read
result, a directory carries its listing result.  Timestamps and the fixed
inter-chunk delay are timing-only and are not modelled.
-/

namespace Chatbot

/-- Shorthand turning a string literal into the `List Char` representation
used throughout this development. -/
def str (s : String) : List Char := s.toList

/-! ## Simulated streaming (`src/unnamed/part_002`, lines 107-165)

`getGeminiResponseSimulatedStream` (and its image twin, which has the
identical chunking loop) obtains the full response, then loops
`for (let i = 0; i < fullResponse.length; i += chunkSize)` emitting
`fullResponse.substring(i, i + chunkSize)` through `onChunk`, and finally
calls `onDone`.  On a generator failure it emits one chunk
`"Error: " + message` and then calls `onDone`. -/

/-- Characters per chunk (`const chunkSize = 5` in `part_002`). -/
def chunkSize : Nat := 5

/-- Fuel-indexed slicing loop; the fuel only guarantees structural
termination and is irrelevant as soon as it dominates the list length. -/
def slicesGo : Nat → List Char → List (List Char)
  | _, [] => []
  | 0, _ :: _ => []
  | Nat.succ n, c :: cs =>
      (c :: cs).take chunkSize :: slicesGo n ((c :: cs).drop chunkSize)

/-- The sequence of chunks emitted by the streaming loop of
`getGeminiResponseSimulatedStream` over `fullResponse = s`:
`s.substring(i, i + 5)` for `i = 0, 5, 10, ...` while `i < s.length`. -/
def slices (s : List Char) : List (List Char) := slicesGo s.length s

/-- One callback invocation observable at the boundary of
`getGeminiResponseSimulatedStream`: an `onChunk` delivery or the `onDone`
signal. -/
inductive StreamEvent where
  | chunk (delta : List Char)
  | done
deriving DecidableEq

/-- Boolean recogniser for the completion callback. -/
def isDone : StreamEvent → Bool
  | .chunk _ => false
  | .done => true

/-- The callback trace of `getGeminiResponseSimulatedStream input onChunk
onDone` as a function of the generator outcome: on success the slices of the
full response followed by `onDone`; on failure one `onChunk` carrying
`"Error: " + message` followed by `onDone` (lines 112-133 of `part_002`). -/
def getGeminiResponseSimulatedStream
    (gen : Except (List Char) (List Char)) : List StreamEvent :=
  match gen with
  | .ok fullResponse => (slices fullResponse).map .chunk ++ [.done]
  | .error e => [.chunk (str "Error: " ++ e), .done]

/-! ## The caller's chunk accumulation (`src/src/extension.ts`, 480-527)

`_handleIncomingMessage` creates a bot message `{ text: '', isComplete:
false }`, then the `onChunk` handler does `responseText += chunk;
this._messages[botIndex].text = responseText;` and posts an update event
carrying the cumulative `responseText` with `isComplete: false`; the
`onDone` handler sets `isComplete = true` and posts a final update with the
cumulative text and `isComplete: true`. -/

/-- The mutable state of the pending bot entry (text plus completion flag);
each posted `updateMessage` event carries exactly this state. -/
structure BotMessage where
  text : List Char
  isComplete : Bool
deriving DecidableEq

/-- The empty pending bot message created before streaming starts
(`extension.ts` lines 196-201). -/
def initialBotMessage : BotMessage := ⟨[], false⟩

/-- Effect of one callback on the bot entry: `onChunk` appends the delta to
the cumulative text, `onDone` sets the completion flag. -/
def applyEvent (m : BotMessage) : StreamEvent → BotMessage
  | .chunk delta => { m with text := m.text ++ delta }
  | .done => { m with isComplete := true }

/-- The sequence of `updateMessage` events posted to the webview while the
callbacks in `es` run against current state `m`: each callback posts the
state it just produced. -/
def runEvents (m : BotMessage) : List StreamEvent → List BotMessage
  | [] => []
  | e :: es => applyEvent m e :: runEvents (applyEvent m e) es

/-- All `updateMessage` events posted during one streaming cycle. -/
def cycleEvents (gen : Except (List Char) (List Char)) : List BotMessage :=
  runEvents initialBotMessage (getGeminiResponseSimulatedStream gen)

/-- The bot entry's final state after one streaming cycle. -/
def runCycle (gen : Except (List Char) (List Char)) : BotMessage :=
  (getGeminiResponseSimulatedStream gen).foldl applyEvent initialBotMessage

/-! ### Facts about the slicing loop -/

theorem slicesGo_fuel (n m : Nat) (s : List Char)
    (hn : s.length ≤ n) (hm : s.length ≤ m) : slicesGo n s = slicesGo m s := by
  induction n generalizing m s with
  | zero =>
      cases s with
      | nil => cases m <;> rfl
      | cons c cs => simp at hn
  | succ n ih =>
      cases s with
      | nil => cases m <;> rfl
      | cons c cs =>
          cases m with
          | zero => simp at hm
          | succ m =>
              simp only [slicesGo]
              congr 1
              apply ih
              · simp [chunkSize] at *; omega
              · simp [chunkSize] at *; omega

theorem slices_nil : slices [] = [] := rfl

theorem slices_cons (s : List Char) (h : s ≠ []) :
    slices s = s.take chunkSize :: slices (s.drop chunkSize) := by
  cases s with
  | nil => exact absurd rfl h
  | cons c cs =>
      show slicesGo (c :: cs).length (c :: cs) = _
      simp only [List.length_cons, slicesGo]
      congr 1
      apply slicesGo_fuel
      · simp only [List.length_drop, List.length_cons, chunkSize]; omega
      · exact Nat.le_refl _

theorem slices_ne_nil (s : List Char) (h : s ≠ []) : slices s ≠ [] := by
  rw [slices_cons s h]; simp

/-- Concatenating the emitted deltas in order reconstructs the response. -/
theorem slices_join (s : List Char) : (slices s).flatten = s := by
  have main : ∀ n s, List.length s ≤ n → (slices s).flatten = s := by
    intro n
    induction n with
    | zero =>
        intro s hs
        have : s = [] := List.length_eq_zero.mp (Nat.le_zero.mp hs)
        subst this; rfl
    | succ n ih =>
        intro s hs
        by_cases h : s = []
        · subst h; rfl
        · rw [slices_cons s h]
          simp only [List.flatten_cons]
          rw [ih (s.drop chunkSize)
            (by simp only [List.length_drop, chunkSize]; omega)]
          exact List.take_append_drop _ _
  exact main s.length s (Nat.le_refl _)

/-- Exactly `ceil (|s| / 5)` chunk callbacks occur. -/
theorem slices_length (s : List Char) :
    (slices s).length = (s.length + 4) / 5 := by
  have main : ∀ n s, List.length s ≤ n → (slices s).length = (s.length + 4) / 5 := by
    intro n
    induction n with
    | zero =>
        intro s hs
        have : s = [] := List.length_eq_zero.mp (Nat.le_zero.mp hs)
        subst this; rfl
    | succ n ih =>
        intro s hs
        by_cases h : s = []
        · subst h; rfl
        · rw [slices_cons s h]
          simp only [List.length_cons]
          rw [ih (s.drop chunkSize)
            (by simp only [List.length_drop, chunkSize]; omega)]
          have hpos : 0 < s.length := List.length_pos.mpr h
          simp only [List.length_drop, chunkSize]
          omega
  exact main s.length s (Nat.le_refl _)

/-- Every slice except possibly the last has exactly `chunkSize` characters. -/
theorem slices_dropLast_length (s : List Char) :
    ∀ c ∈ (slices s).dropLast, c.length = chunkSize := by
  have main : ∀ n s, List.length s ≤ n →
      ∀ c ∈ (slices s).dropLast, c.length = chunkSize := by
    intro n
    induction n with
    | zero =>
        intro s hs
        have : s = [] := List.length_eq_zero.mp (Nat.le_zero.mp hs)
        subst this; intro c hc; simp [slices_nil] at hc
    | succ n ih =>
        intro s hs c hc
        by_cases h : s = []
        · subst h; simp [slices_nil] at hc
        · rw [slices_cons s h] at hc
          by_cases hd : s.drop chunkSize = []
          · rw [hd, slices_nil] at hc
            simp at hc
          · have htail := slices_ne_nil _ hd
            obtain ⟨t, ts, ht⟩ : ∃ t ts, slices (s.drop chunkSize) = t :: ts :=
              List.exists_cons_of_ne_nil htail
            rw [ht] at hc
            rw [List.dropLast_cons₂] at hc
            have hlen : chunkSize < s.length := by
              have := List.length_pos.mpr hd
              simp only [List.length_drop] at this
              omega
            cases hc with
            | head =>
                simp only [List.length_take]
                omega
            | tail _ hmem =>
                rw [← ht] at hmem
                exact ih (s.drop chunkSize)
                  (by simp only [List.length_drop, chunkSize] at hlen ⊢; omega)
                  c hmem
  exact main s.length s (Nat.le_refl _)

/-- When `|s|` is not a multiple of 5 the final slice has `|s| mod 5`
characters. -/
theorem slices_getLast_length (s : List Char) (h5 : s.length % 5 ≠ 0) :
    ((slices s).getLast?).map List.length = some (s.length % 5) := by
  have main : ∀ n s, List.length s ≤ n → List.length s % 5 ≠ 0 →
      ((slices s).getLast?).map List.length = some (List.length s % 5) := by
    intro n
    induction n with
    | zero =>
        intro s hs h5
        have : s = [] := List.length_eq_zero.mp (Nat.le_zero.mp hs)
        subst this; simp at h5
    | succ n ih =>
        intro s hs h5
        by_cases h : s = []
        · subst h; simp at h5
        · rw [slices_cons s h]
          have hpos : 0 < s.length := List.length_pos.mpr h
          by_cases hd : s.drop chunkSize = []
          · rw [hd, slices_nil]
            have hle : s.length ≤ chunkSize := by
              by_contra hgt
              push_neg at hgt
              have : 0 < (s.drop chunkSize).length := by
                simp only [List.length_drop]; omega
              rw [hd] at this; simp at this
            simp only [List.getLast?_singleton, Option.map_some', List.length_take,
              Option.some.injEq]
            have : s.length ≠ 5 := by
              intro hq; rw [hq] at h5; simp at h5
            simp only [chunkSize] at hle ⊢
            omega
          · have htail := slices_ne_nil _ hd
            obtain ⟨t, ts, ht⟩ : ∃ t ts, slices (s.drop chunkSize) = t :: ts :=
              List.exists_cons_of_ne_nil htail
            rw [ht, List.getLast?_cons_cons]
            have hlen : chunkSize < s.length := by
              have := List.length_pos.mpr hd
              simp only [List.length_drop] at this
              omega
            have hmod : (s.drop chunkSize).length % 5 = s.length % 5 := by
              simp only [List.length_drop, chunkSize] at hlen ⊢
              omega
            have := ih (s.drop chunkSize)
              (by simp only [List.length_drop, chunkSize] at hlen ⊢; omega)
              (by rw [hmod]; exact h5)
            rw [ht, hmod] at this
            simpa using this
  exact main s.length s (Nat.le_refl _) h5

/-! ### Facts about the event trace -/

theorem applyEvent_text_extends (m : BotMessage) (e : StreamEvent) :
    m.text <+: (applyEvent m e).text := by
  cases e with
  | chunk delta => exact ⟨delta, rfl⟩
  | done => exact ⟨[], List.append_nil _⟩

theorem foldl_text_extends (es : List StreamEvent) (m : BotMessage) :
    m.text <+: (es.foldl applyEvent m).text := by
  induction es generalizing m with
  | nil => exact ⟨[], List.append_nil _⟩
  | cons e es ih =>
      obtain ⟨t₁, h₁⟩ := applyEvent_text_extends m e
      obtain ⟨t₂, h₂⟩ := ih (applyEvent m e)
      exact ⟨t₁ ++ t₂, by rw [← List.append_assoc, h₁]; exact h₂⟩

theorem runEvents_mem_text (es : List StreamEvent) (m : BotMessage) :
    ∀ ev ∈ runEvents m es, ev.text <+: (es.foldl applyEvent m).text := by
  induction es generalizing m with
  | nil => intro ev hev; simp [runEvents] at hev
  | cons e es ih =>
      intro ev hev
      simp only [runEvents, List.mem_cons] at hev
      simp only [List.foldl_cons]
      cases hev with
      | inl h => subst h; exact foldl_text_extends es (applyEvent m e)
      | inr h => exact ih (applyEvent m e) ev h

theorem runEvents_mem_lower (es : List StreamEvent) (m : BotMessage) :
    ∀ ev ∈ runEvents m es, m.text <+: ev.text := by
  induction es generalizing m with
  | nil => intro ev hev; simp [runEvents] at hev
  | cons e es ih =>
      intro ev hev
      simp only [runEvents, List.mem_cons] at hev
      cases hev with
      | inl h => subst h; exact applyEvent_text_extends m e
      | inr h =>
          obtain ⟨t₁, h₁⟩ := applyEvent_text_extends m e
          obtain ⟨t₂, h₂⟩ := ih (applyEvent m e) ev h
          exact ⟨t₁ ++ t₂, by rw [← List.append_assoc, h₁]; exact h₂⟩

theorem runEvents_pairwise (es : List StreamEvent) (m : BotMessage) :
    List.Pairwise (fun a b => a.text <+: b.text) (runEvents m es) := by
  induction es generalizing m with
  | nil => simp [runEvents]
  | cons e es ih =>
      simp only [runEvents]
      refine List.pairwise_cons.mpr ⟨?_, ih (applyEvent m e)⟩
      intro b hb
      exact runEvents_mem_lower es (applyEvent m e) b hb

theorem runEvents_getLast (es : List StreamEvent) (m : BotMessage)
    (h : es ≠ []) :
    (runEvents m es).getLast? = some (es.foldl applyEvent m) := by
  induction es generalizing m with
  | nil => exact absurd rfl h
  | cons e es ih =>
      cases es with
      | nil => rfl
      | cons e' es' =>
          simp only [runEvents, List.foldl_cons]
          rw [List.getLast?_cons_cons]
          show (runEvents (applyEvent m e) (e' :: es')).getLast? = _
          exact ih (applyEvent m e) (by simp)

theorem runEvents_append (es fs : List StreamEvent) (m : BotMessage) :
    runEvents m (es ++ fs)
      = runEvents m es ++ runEvents (es.foldl applyEvent m) fs := by
  induction es generalizing m with
  | nil => rfl
  | cons e es ih =>
      simp only [List.cons_append, runEvents, List.foldl_cons, List.append_eq, ih]

theorem runEvents_chunks_flag (cs : List (List Char)) (m : BotMessage) :
    ∀ ev ∈ runEvents m (cs.map .chunk), ev.isComplete = m.isComplete := by
  induction cs generalizing m with
  | nil => intro ev hev; simp [runEvents] at hev
  | cons c cs ih =>
      intro ev hev
      simp only [List.map_cons, runEvents, List.mem_cons] at hev
      cases hev with
      | inl h => subst h; rfl
      | inr h =>
          have := ih (applyEvent m (.chunk c)) ev h
          simpa [applyEvent] using this

theorem foldl_chunks (cs : List (List Char)) (m : BotMessage) :
    (cs.map StreamEvent.chunk).foldl applyEvent m
      = ⟨m.text ++ cs.flatten, m.isComplete⟩ := by
  induction cs generalizing m with
  | nil => simp
  | cons c cs ih =>
      simp only [List.map_cons, List.foldl_cons, List.flatten_cons]
      rw [ih]
      simp [applyEvent, List.append_assoc]

/-! ## Claim theorems about simulated streaming -/

/-- C1: for every response string `R` (including the empty string), driving
simulated streaming over `R` produces update events whose cumulative texts
are prefixes of `R` of non-decreasing length, the last event's cumulative
text is exactly `R` with the completed flag set, exactly one posted event
carries the completed flag, and the completion callback `onDone` fires
exactly once per call. -/
theorem simulatedStream_cumulative_events_spec (R : List Char) :
    (∀ ev ∈ cycleEvents (.ok R), ev.text <+: R) ∧
    List.Pairwise (fun a b => a.text.length ≤ b.text.length)
      (cycleEvents (.ok R)) ∧
    (cycleEvents (.ok R)).getLast? = some ⟨R, true⟩ ∧
    (cycleEvents (.ok R)).countP (fun ev => ev.isComplete) = 1 ∧
    (getGeminiResponseSimulatedStream (.ok R)).countP isDone = 1 := by
  have hfinal : (getGeminiResponseSimulatedStream (.ok R)).foldl applyEvent
      initialBotMessage = ⟨R, true⟩ := by
    simp only [getGeminiResponseSimulatedStream, List.foldl_append, foldl_chunks]
    simp [applyEvent, initialBotMessage, slices_join]
  refine ⟨?_, ?_, ?_, ?_, ?_⟩
  · intro ev hev
    have h := runEvents_mem_text (getGeminiResponseSimulatedStream (.ok R))
      initialBotMessage ev hev
    rw [hfinal] at h
    exact h
  · exact (runEvents_pairwise _ _).imp
      (fun hab => by obtain ⟨t, ht⟩ := hab; rw [← ht]; simp)
  · rw [cycleEvents, runEvents_getLast _ _ (by simp [getGeminiResponseSimulatedStream]),
      hfinal]
  · have hsplit : cycleEvents (.ok R)
        = runEvents initialBotMessage ((slices R).map .chunk)
          ++ [applyEvent
                (((slices R).map .chunk).foldl applyEvent initialBotMessage)
                .done] := by
      simp only [cycleEvents, getGeminiResponseSimulatedStream, runEvents_append]
      rfl
    rw [hsplit, List.countP_append]
    have h0 : (runEvents initialBotMessage ((slices R).map .chunk)).countP
        (fun ev => ev.isComplete) = 0 := by
      rw [List.countP_eq_zero]
      intro ev hev
      have := runEvents_chunks_flag (slices R) initialBotMessage ev hev
      simp [this, initialBotMessage]
    rw [h0]
    rfl
  · simp only [getGeminiResponseSimulatedStream, List.countP_append,
      List.countP_map]
    have : ((slices R).countP (isDone ∘ StreamEvent.chunk)) = 0 := by
      rw [List.countP_eq_zero]
      intro c _
      simp [isDone]
    rw [this]
    rfl

/-- Witness for `simulatedStream_cumulative_events_spec` at
`R = "abcdefg"`, with the first chunk event as the member instance. -/
theorem simulatedStream_cumulative_events_witness :
    (⟨str "abcde", false⟩ : BotMessage).text <+: str "abcdefg" ∧
    (cycleEvents (.ok (str "abcdefg"))).getLast?
      = some ⟨str "abcdefg", true⟩ := by
  have h := simulatedStream_cumulative_events_spec (str "abcdefg")
  exact ⟨h.1 ⟨str "abcde", false⟩ (by decide), h.2.2.1⟩

/-- C2: whenever the generator call fails, the failure handler of
`getGeminiResponseSimulatedStream` (lines 129-133 of `part_002`) delivers
an `"Error: ..."` chunk and fires `onDone`, so the pending bot entry ends
the cycle with completed status and text beginning with `"Error:"` — it is
never left pending. -/
theorem generatorFailure_resolves_entry (e : List Char) :
    (runCycle (.error e)).isComplete = true ∧
    str "Error:" <+: (runCycle (.error e)).text :=
  ⟨rfl, ⟨' ' :: e, rfl⟩⟩

/-- C8: simulated streaming partitions the response into consecutive
5-character slices (the final slice carrying `|R| mod 5` characters when
that is non-zero), emits exactly `ceil (|R| / 5)` chunk callbacks, and the
concatenation of the deltas reconstructs `R`. -/
theorem slices_partition_spec (R : List Char) :
    (slices R).length = (R.length + 4) / 5 ∧
    (slices R).flatten = R ∧
    (∀ c ∈ (slices R).dropLast, c.length = 5) ∧
    (R.length % 5 ≠ 0 →
      ((slices R).getLast?).map List.length = some (R.length % 5)) := by
  refine ⟨slices_length R, slices_join R, ?_, fun h => slices_getLast_length R h⟩
  intro c hc
  exact slices_dropLast_length R c hc

/-- Witness for `slices_partition_spec` at `R = "abcdefg"` (length 7):
two slices, the first of length 5 and the last of length `7 mod 5 = 2`. -/
theorem slices_partition_spec_witness :
    (slices (str "abcdefg")).length = (7 + 4) / 5 ∧
    (slices (str "abcdefg")).flatten = str "abcdefg" ∧
    (str "abcde").length = 5 ∧
    ((slices (str "abcdefg")).getLast?).map List.length = some 2 := by
  have h := slices_partition_spec (str "abcdefg")
  exact ⟨h.1, h.2.1, h.2.2.1 (str "abcde") (by decide), h.2.2.2 (by decide)⟩

/-! ## Context assembly (`src/src/extension.ts`, lines 148-365, 1448-1475)

A selected text file carries the outcome of its `fs.readFileSync` call; a
selected image carries the outcome of `fs.readFileSync` followed by base64
encoding.  The directory-tree text produced by `_generateDirectoryTree` is
passed in as a parameter (`tree`), since it depends only on the workspace
file system. -/

deriving instance DecidableEq for Except

/-- Boolean substring containment, the model of JavaScript
`String.prototype.includes`. -/
def listIncludes : List Char → List Char → Bool
  | [], pat => pat.isEmpty
  | c :: rest, pat => pat.isPrefixOf (c :: rest) || listIncludes rest pat

/-- A selected text file together with its read outcome. -/
structure FileSel where
  path : List Char
  content : Except Unit (List Char)
deriving DecidableEq

/-- A selected image together with the outcome of reading and
base64-encoding it. -/
structure ImgSel where
  path : List Char
  data : Except Unit (List Char)
deriving DecidableEq

/-- The fixed keyword list of `_shouldIncludeTreeStructure`
(`extension.ts` lines 1459-1471). -/
def codeKeywords : List (List Char) :=
  [str "code", str "project", str "structure", str "directory",
   str "folder", str "file", str "function", str "method", str "class",
   str "module", str "import"]

/-- Embedding of `_shouldIncludeTreeStructure` (lines 1448-1475): include
the tree when files or images are selected, otherwise when the lowercased
query contains any keyword. -/
def shouldIncludeTreeStructure (text : List Char) (files : List FileSel)
    (images : List ImgSel) : Bool :=
  if 0 < files.length ∨ 0 < images.length then true
  else codeKeywords.any fun keyword =>
    listIncludes (text.map Char.toLower) keyword

/-- The `SELECTED FILES` summary block (lines 260-278). -/
def selectedFilesSection (files : List FileSel) (images : List ImgSel) :
    List Char :=
  if 0 < files.length ∨ 0 < images.length then
    str "SELECTED FILES:\n"
    ++ (if 0 < files.length then
          str "Text Files:\n"
          ++ (files.map fun f => str "- " ++ f.path ++ str "\n").flatten
          ++ str "\n"
        else [])
    ++ (if 0 < images.length then
          str "Image Files:\n"
          ++ (images.map fun i => str "- " ++ i.path ++ str "\n").flatten
          ++ str "\n"
        else [])
  else []

/-- One entry of the `fileContents` array (lines 282-293): the file content
wrapped with its path, or the inline placeholder when the read failed. -/
def fileEntry (f : FileSel) : List Char :=
  match f.content with
  | .ok content => str "File: " ++ f.path ++ str "\nContent:\n" ++ content
      ++ str "\n\n"
  | .error _ => str "File: " ++ f.path ++ str " (Error: Could not read file)\n\n"

/-- `Array.prototype.join` with a separator, as used by
`fileContents.join('\n---\n\n')`. -/
def joinSep (sep : List Char) : List (List Char) → List Char
  | [] => []
  | [x] => x
  | x :: y :: ys => x ++ sep ++ joinSep sep (y :: ys)

/-- The `FILE CONTENTS` block (lines 281-299).  The source's inner
`fileContents.length > 0` test is subsumed by the outer `files.length > 0`
test because the loop pushes one entry per file on both outcomes. -/
def fileContentsSection (files : List FileSel) : List Char :=
  if 0 < files.length then
    str "FILE CONTENTS:\n" ++ joinSep (str "\n---\n\n") (files.map fileEntry)
  else []

/-- The directory-tree part of the prompt (lines 254-257). -/
def treeSection (includeTree : Bool) (tree : List Char) : List Char :=
  if includeTree then tree ++ str "\n\n" else []

/-- The prompt before any multi-image disclosure is prepended: tree part,
selected-files summary, file contents, then `QUERY:` marker and the raw
query text (lines 249-336). -/
def basePrompt (text tree : List Char) (files : List FileSel)
    (images : List ImgSel) : List Char :=
  treeSection (shouldIncludeTreeStructure text files images) tree
  ++ selectedFilesSection files images
  ++ fileContentsSection files
  ++ str "\n\nQUERY:\n" ++ text

/-- Model of `path.extname` applied to a basename: the suffix from the last
dot, or empty when there is no dot or the basename starts with its only
dot. -/
def extname (b : List Char) : List Char :=
  let afterLen := (b.reverse.takeWhile fun c => c ≠ '.').length
  if afterLen = b.length then []
  else if b.length - afterLen - 1 = 0 then []
  else b.drop (b.length - afterLen - 1)

/-- Model of `path.basename`: the part after the last slash. -/
def basename (p : List Char) : List Char :=
  (p.reverse.takeWhile fun c => c ≠ '/').reverse

/-- The extension-to-MIME mapping of lines 312-325 (default `image/png`). -/
def mimeFromExt (ext : List Char) : List Char :=
  if ext = str ".jpg" ∨ ext = str ".jpeg" then str "image/jpeg"
  else if ext = str ".gif" then str "image/gif"
  else if ext = str ".webp" then str "image/webp"
  else if ext = str ".svg" then str "image/svg+xml"
  else if ext = str ".bmp" then str "image/bmp"
  else str "image/png"

/-- The data URL built for a successfully read image (line 327). -/
def imgDataUrl (path b64 : List Char) : List Char :=
  str "data:" ++ mimeFromExt ((extname (basename path)).map Char.toLower)
  ++ str ";base64," ++ b64

/-- The `imageDataUrls` array (lines 302-333): one `(path, dataUrl)` pair
per successfully read image, in selection order; failed reads are logged
and skipped. -/
def imageDataUrls (images : List ImgSel) : List (List Char × List Char) :=
  images.filterMap fun img =>
    match img.data with
    | .ok b64 => some (img.path, imgDataUrl img.path b64)
    | .error _ => none

/-- The multi-image disclosure prefix (lines 346-350), parameterised by the
number of additional images. -/
def disclosure (n : Nat) : List Char :=
  str "I\x27m sending you one image, but I\x27m also referencing "
  ++ (toString n).toList ++ str " other image(s) in my query.\n\n"

/-- Everything `_handleIncomingMessage` decides before dispatching the
generator call: the final prompt, the data URL attached to the pending bot
entry (shown as its image), and whether the image-enabled generator is
used. -/
structure CycleSetup where
  prompt : List Char
  attachedImage : Option (List Char)
  usesImageApi : Bool
deriving DecidableEq

/-- Embedding of the prompt-construction and dispatch logic of
`_handleIncomingMessage` (lines 240-365 and 479-483): with no files, no
images and no keyword hit the raw query is sent unchanged; otherwise the
structured prompt is built, and when at least one image was encoded the
first encoded image is attached, with a disclosure prefix when more than
one image was encoded. -/
def setupFor (text tree : List Char) (files : List FileSel)
    (images : List ImgSel) : CycleSetup :=
  let includeTree := shouldIncludeTreeStructure text files images
  if 0 < files.length ∨ 0 < images.length ∨ includeTree = true then
    let urls := imageDataUrls images
    match urls with
    | [] => ⟨basePrompt text tree files images, none, false⟩
    | firstImage :: rest =>
        ⟨(if 0 < rest.length then
            disclosure (rest.length) ++ basePrompt text tree files images
          else basePrompt text tree files images),
         some firstImage.2, true⟩
  else ⟨text, none, false⟩

/-! ## Claim theorems about context assembly -/

/-- C4: with no selected files, no selected images and a query whose
lowercased text contains none of the code-intent keywords, the generator
receives exactly the original query: no directory snapshot, no section
headers, no attachment. -/
theorem emptySelection_identity_prompt (text tree : List Char)
    (h : codeKeywords.all
      (fun k => !(listIncludes (text.map Char.toLower) k)) = true) :
    setupFor text tree [] [] = ⟨text, none, false⟩ := by
  have hs : shouldIncludeTreeStructure text [] [] = false := by
    simp only [shouldIncludeTreeStructure, List.length_nil, Nat.lt_irrefl,
      or_self, if_false]
    rw [List.any_eq_false]
    intro k hk
    have := (List.all_eq_true.mp h) k hk
    simpa using this
  simp [setupFor, hs]

/-- Witness for `emptySelection_identity_prompt` at the keyword-free query
`"hello there"`. -/
theorem emptySelection_identity_prompt_witness :
    setupFor (str "hello there") (str "TREE") [] []
      = ⟨str "hello there", none, false⟩ :=
  emptySelection_identity_prompt (str "hello there") (str "TREE") (by decide)

/-- C5: for a selection consisting of the single text file `a.txt` with
content `X`, the assembled prompt is, in order: the directory snapshot
(included because a file is selected), the `SELECTED FILES` section listing
`a.txt`, the `FILE CONTENTS` section carrying `a.txt`'s path and content
`X`, and finally the `QUERY:` marker followed by the original query — for
every query, tree and content. -/
theorem singleFile_prompt_section_order (q tree X : List Char) :
    setupFor q tree [⟨str "a.txt", .ok X⟩] [] =
      ⟨tree
        ++ str "\n\nSELECTED FILES:\nText Files:\n- a.txt\n\nFILE CONTENTS:\nFile: a.txt\nContent:\n"
        ++ X ++ str "\n\n\n\nQUERY:\n" ++ q, none, false⟩ := by
  simp only [setupFor, basePrompt, treeSection, selectedFilesSection,
    fileContentsSection, fileEntry, joinSep, shouldIncludeTreeStructure,
    imageDataUrls, List.filterMap_nil, List.map_cons, List.map_nil,
    List.flatten_cons, List.flatten_nil, List.append_nil, List.append_assoc,
    List.length_cons, List.length_nil, Nat.lt_irrefl, Nat.zero_lt_succ,
    true_or, false_or, or_false, or_self, if_true, if_false, reduceIte]
  rfl

/-! ### Containment helpers -/

theorem subLeft {u v : List Char} (a : List Char) (h : u <:+: v) :
    u <:+: a ++ v := by
  obtain ⟨s, t, hst⟩ := h
  exact ⟨a ++ s, t, by rw [List.append_assoc, List.append_assoc, ← List.append_assoc s, hst]⟩

theorem subRight {u v : List Char} (c : List Char) (h : u <:+: v) :
    u <:+: v ++ c := by
  obtain ⟨s, t, hst⟩ := h
  exact ⟨s, t ++ c, by rw [← hst]; simp [List.append_assoc]⟩

theorem joinSep_mem_sub (sep : List Char) (l : List (List Char)) :
    ∀ x ∈ l, x <:+: joinSep sep l := by
  induction l with
  | nil => intro x hx; simp at hx
  | cons a l ih =>
      intro x hx
      cases l with
      | nil =>
          simp only [List.mem_singleton] at hx
          subst hx
          exact ⟨[], [], by simp [joinSep]⟩
      | cons b bs =>
          rcases List.mem_cons.mp hx with h | h
          · subst h
            exact ⟨[], sep ++ joinSep sep (b :: bs), by simp [joinSep, List.append_assoc]⟩
          · have := ih x h
            show x <:+: joinSep sep (a :: b :: bs)
            rw [joinSep, List.append_assoc]
            exact subLeft _ (subLeft _ this)

/-- C7: a read failure on any individual selected file is downgraded to the
inline placeholder `File: <path> (Error: Could not read file)` inside the
assembled prompt; assembly completes and the prompt still carries the
`FILE CONTENTS` and `SELECTED FILES` sections and, as a suffix, the
`QUERY:` marker followed by the original query. -/
theorem fileReadFailure_inline_placeholder (q tree : List Char)
    (files : List FileSel) (images : List ImgSel) (f : FileSel)
    (hf : f ∈ files) (herr : f.content = .error ()) :
    (str "File: " ++ f.path ++ str " (Error: Could not read file)\n\n")
      <:+: (setupFor q tree files images).prompt ∧
    str "FILE CONTENTS:\n" <:+: (setupFor q tree files images).prompt ∧
    str "SELECTED FILES:\n" <:+: (setupFor q tree files images).prompt ∧
    (str "\n\nQUERY:\n" ++ q) <:+ (setupFor q tree files images).prompt := by
  have hnf : 0 < files.length := List.length_pos.mpr (List.ne_nil_of_mem hf)
  obtain ⟨d, hd⟩ : ∃ d, (setupFor q tree files images).prompt
      = d ++ basePrompt q tree files images := by
    simp only [setupFor]
    rw [if_pos (Or.inl hnf)]
    cases himgs : imageDataUrls images with
    | nil => exact ⟨[], rfl⟩
    | cons u rest =>
        by_cases h1 : 0 < rest.length
        · exact ⟨disclosure rest.length, by simp only [if_pos h1]⟩
        · exact ⟨[], by simp only [if_neg h1, List.nil_append]⟩
  have hbase : basePrompt q tree files images
      = treeSection (shouldIncludeTreeStructure q files images) tree
        ++ (selectedFilesSection files images
        ++ ((str "FILE CONTENTS:\n" ++ joinSep (str "\n---\n\n") (files.map fileEntry))
        ++ (str "\n\nQUERY:\n" ++ q))) := by
    simp only [basePrompt, fileContentsSection, if_pos hnf, List.append_assoc]
  have hsel : selectedFilesSection files images
      = str "SELECTED FILES:\n"
        ++ ((if 0 < files.length then
              str "Text Files:\n"
              ++ (files.map fun fl => str "- " ++ fl.path ++ str "\n").flatten
              ++ str "\n"
            else [])
        ++ (if 0 < images.length then
              str "Image Files:\n"
              ++ (images.map fun i => str "- " ++ i.path ++ str "\n").flatten
              ++ str "\n"
            else [])) := by
    simp only [selectedFilesSection, if_pos (Or.inl hnf), List.append_assoc]
  have hentry : fileEntry f
      = str "File: " ++ f.path ++ str " (Error: Could not read file)\n\n" := by
    simp [fileEntry, herr]
  refine ⟨?_, ?_, ?_, ?_⟩
  · rw [hd, hbase]
    refine subLeft d (subLeft _ (subLeft _ ?_))
    refine subRight _ (subLeft _ ?_)
    rw [← hentry]
    exact joinSep_mem_sub _ _ (fileEntry f) (List.mem_map_of_mem fileEntry hf)
  · rw [hd, hbase]
    refine subLeft d (subLeft _ (subLeft _ ?_))
    refine subRight _ ?_
    exact subRight _ ⟨[], [], by simp⟩
  · rw [hd, hbase, hsel]
    refine subLeft d (subLeft _ ?_)
    refine subRight _ ?_
    exact subRight _ ⟨[], [], by simp⟩
  · rw [hd, hbase]
    exact ⟨d ++ (treeSection (shouldIncludeTreeStructure q files images) tree
      ++ (selectedFilesSection files images
      ++ (str "FILE CONTENTS:\n" ++ joinSep (str "\n---\n\n") (files.map fileEntry)))),
      by simp [List.append_assoc]⟩

/-- Witness for `fileReadFailure_inline_placeholder`: one selected file
whose read failed. -/
theorem fileReadFailure_inline_placeholder_witness :
    (str "File: bad.txt (Error: Could not read file)\n\n")
      <:+: (setupFor (str "q") (str "T")
              [⟨str "bad.txt", .error ()⟩] []).prompt ∧
    (str "\n\nQUERY:\nq")
      <:+ (setupFor (str "q") (str "T")
              [⟨str "bad.txt", .error ()⟩] []).prompt := by
  have h := fileReadFailure_inline_placeholder (str "q") (str "T")
    [⟨str "bad.txt", .error ()⟩] [] ⟨str "bad.txt", .error ()⟩
    (List.mem_singleton.mpr rfl) rfl
  exact ⟨h.1, h.2.2.2⟩

/-- C6 counterexample: two images are selected (`img1.png` first, but its
read fails; `img2.jpg` second, read succeeds).  The attached data URL is
`img2.jpg`'s encoding — not the first image in selection order — and the
prompt carries no multi-image disclosure even though two images were
selected, refuting the claim as stated. -/
theorem imageSelection_first_counterexample :
    ([⟨str "img1.png", .error ()⟩, ⟨str "img2.jpg", .ok (str "AAA")⟩]
        : List ImgSel).length = 2 ∧
    (setupFor (str "q") (str "T") []
        [⟨str "img1.png", .error ()⟩, ⟨str "img2.jpg", .ok (str "AAA")⟩]).attachedImage
      = some (str "data:image/jpeg;base64,AAA") ∧
    (setupFor (str "q") (str "T") []
        [⟨str "img1.png", .error ()⟩, ⟨str "img2.jpg", .ok (str "AAA")⟩]).prompt
      = str "T\n\nSELECTED FILES:\nImage Files:\n- img1.png\n- img2.jpg\n\n\n\nQUERY:\nq" ∧
    listIncludes
      (setupFor (str "q") (str "T") []
        [⟨str "img1.png", .error ()⟩, ⟨str "img2.jpg", .ok (str "AAA")⟩]).prompt
      (str "I\x27m sending you one image") = false := by
  refine ⟨rfl, rfl, rfl, by decide⟩

/-- C6 (amended): among the selected images, the first one that is
successfully read and encoded is attached as its data URL; when two or
more images are successfully encoded the prompt is prefixed with the
disclosure naming the number of additional encoded images, and when
exactly one image is successfully encoded no disclosure prefix is added
(images whose read fails are skipped). -/
theorem imageSelection_firstEncoded_attached (q tree : List Char)
    (files : List FileSel) (pre post : List ImgSel) (img : ImgSel)
    (b64 : List Char) (hpre : ∀ p ∈ pre, p.data = .error ())
    (himg : img.data = .ok b64) :
    (setupFor q tree files (pre ++ img :: post)).attachedImage
      = some (imgDataUrl img.path b64) ∧
    (1 < (imageDataUrls (pre ++ img :: post)).length →
      (setupFor q tree files (pre ++ img :: post)).prompt
        = disclosure ((imageDataUrls (pre ++ img :: post)).length - 1)
          ++ basePrompt q tree files (pre ++ img :: post)) ∧
    ((imageDataUrls (pre ++ img :: post)).length = 1 →
      (setupFor q tree files (pre ++ img :: post)).prompt
        = basePrompt q tree files (pre ++ img :: post)) := by
  have hurls : imageDataUrls (pre ++ img :: post)
      = (img.path, imgDataUrl img.path b64) :: imageDataUrls post := by
    simp only [imageDataUrls, List.filterMap_append, List.filterMap_cons, himg]
    rw [List.filterMap_eq_nil_iff.mpr (fun p hp => by rw [hpre p hp])]
    rfl
  have hcond : 0 < files.length ∨ 0 < (pre ++ img :: post).length ∨
      shouldIncludeTreeStructure q files (pre ++ img :: post) = true := by
    right; left; simp
  refine ⟨?_, ?_, ?_⟩
  · simp only [setupFor, hurls]
    rw [if_pos hcond]
  · intro h2
    rw [hurls] at h2
    simp only [List.length_cons, Nat.lt_add_one_iff] at h2
    have h2' : 0 < (imageDataUrls post).length := h2
    simp only [setupFor, hurls]
    rw [if_pos hcond]
    simp only [if_pos h2', hurls, List.length_cons, Nat.add_sub_cancel]
  · intro h1
    rw [hurls] at h1
    simp only [List.length_cons, Nat.add_eq_right] at h1
    have h1' : ¬ 0 < (imageDataUrls post).length := by omega
    simp only [setupFor, hurls]
    rw [if_pos hcond]
    simp only [if_neg h1', List.nil_append]

/-- Witness for `imageSelection_firstEncoded_attached`: a failing first
image, an encoded second image, and (first use) a third encoded image
forcing the disclosure, (second use) no third image so no disclosure. -/
theorem imageSelection_firstEncoded_attached_witness :
    (setupFor (str "q") (str "T") []
        [⟨str "a.png", .error ()⟩, ⟨str "b.jpg", .ok (str "QQ")⟩,
         ⟨str "c.png", .ok (str "RR")⟩]).attachedImage
      = some (imgDataUrl (str "b.jpg") (str "QQ")) ∧
    (setupFor (str "q") (str "T") []
        [⟨str "a.png", .error ()⟩, ⟨str "b.jpg", .ok (str "QQ")⟩,
         ⟨str "c.png", .ok (str "RR")⟩]).prompt
      = disclosure 1
        ++ basePrompt (str "q") (str "T") []
             [⟨str "a.png", .error ()⟩, ⟨str "b.jpg", .ok (str "QQ")⟩,
              ⟨str "c.png", .ok (str "RR")⟩] ∧
    (setupFor (str "q") (str "T") []
        [⟨str "a.png", .error ()⟩, ⟨str "b.jpg", .ok (str "QQ")⟩]).prompt
      = basePrompt (str "q") (str "T") []
          [⟨str "a.png", .error ()⟩, ⟨str "b.jpg", .ok (str "QQ")⟩] := by
  have h3 := imageSelection_firstEncoded_attached (str "q") (str "T") []
    [⟨str "a.png", .error ()⟩] [⟨str "c.png", .ok (str "RR")⟩]
    ⟨str "b.jpg", .ok (str "QQ")⟩ (str "QQ") (by decide) rfl
  have h2 := imageSelection_firstEncoded_attached (str "q") (str "T") []
    [⟨str "a.png", .error ()⟩] [] ⟨str "b.jpg", .ok (str "QQ")⟩ (str "QQ")
    (by decide) rfl
  exact ⟨h3.1, h3.2.1 (by decide), h2.2.2 (by decide)⟩

/-! ## The user-append phase (`src/src/extension.ts`, lines 148-226)

`_handleIncomingMessage` unconditionally pushes a completed user entry
(with the display text enhanced by the selection lists) followed by an
empty pending bot entry.  There is no check of any kind on the state of
`this._messages`: no guard inspects whether an earlier bot entry is still
incomplete, and no error is ever raised from this phase.  Timestamps are
not modelled. -/

/-- The sender tag of a conversation entry. -/
inductive Sender where
  | user
  | bot
deriving DecidableEq

/-- One entry of `this._messages` (text, sender, completion flag, optional
attached image source). -/
structure ChatMessage where
  text : List Char
  sender : Sender
  isComplete : Bool
  imageSrc : Option (List Char)
deriving DecidableEq

/-- The enhanced display text of lines 153-174: the query followed by the
selected file and image lists when any are present. -/
def displayTextFor (text : List Char) (files images : List (List Char)) :
    List Char :=
  if 0 < files.length ∨ 0 < images.length then
    text ++ str "\n\n"
    ++ (if 0 < files.length then
          str "📄 Selected files:\n"
          ++ (files.map fun f => str "- " ++ f ++ str "\n").flatten
        else [])
    ++ (if 0 < images.length then
          (if 0 < files.length then str "\n" else [])
          ++ str "🖼️ Selected images:\n"
          ++ (images.map fun i => str "- " ++ i ++ str "\n").flatten
        else [])
  else text

/-- The append phase of `_handleIncomingMessage` (lines 176-210): push the
completed user entry, then push the empty pending bot entry.  The source
performs these two pushes unconditionally and returns no error. -/
def appendUserAndPending (msgs : List ChatMessage) (text : List Char)
    (files images : List (List Char)) : List ChatMessage :=
  msgs ++ [⟨displayTextFor text files images, .user, true, none⟩,
           ⟨[], .bot, false, none⟩]

/-- A conversation state contains a pending (assistant) entry. -/
def hasPendingEntry (msgs : List ChatMessage) : Bool :=
  msgs.any fun m => !m.isComplete

/-- C3 counterexample: after a first `_handleIncomingMessage` append the
bot entry is still pending, yet a second append succeeds unchanged — it
simply appends another user entry and another pending bot entry, with no
`InvalidState` failure and two pending entries in the result. -/
theorem appendUser_noInvalidState_counterexample :
    hasPendingEntry (appendUserAndPending [] (str "hi") [] []) = true ∧
    appendUserAndPending (appendUserAndPending [] (str "hi") [] [])
        (str "again") [] []
      = [⟨str "hi", .user, true, none⟩, ⟨[], .bot, false, none⟩,
         ⟨str "again", .user, true, none⟩, ⟨[], .bot, false, none⟩] ∧
    (appendUserAndPending (appendUserAndPending [] (str "hi") [] [])
        (str "again") [] []).countP (fun m => !m.isComplete) = 2 := by
  refine ⟨rfl, rfl, rfl⟩

/-- C3 (amended): the code performs no pending-state check — appending a
user entry while a prior assistant entry is still pending succeeds
unconditionally, appends the user entry and a fresh pending assistant
entry, and leaves at least two pending entries, so the at-most-one-pending
invariant is not enforced and no `InvalidState` failure exists. -/
theorem appendUser_unconditional_append (msgs : List ChatMessage)
    (text : List Char) (files images : List (List Char))
    (h : hasPendingEntry msgs = true) :
    appendUserAndPending msgs text files images
      = msgs ++ [⟨displayTextFor text files images, .user, true, none⟩,
                 ⟨[], .bot, false, none⟩] ∧
    hasPendingEntry (appendUserAndPending msgs text files images) = true ∧
    2 ≤ (appendUserAndPending msgs text files images).countP
          (fun m => !m.isComplete) := by
  refine ⟨rfl, ?_, ?_⟩
  · simp only [hasPendingEntry, appendUserAndPending, List.any_append,
      Bool.or_eq_true]
    left
    exact h
  · simp only [appendUserAndPending, List.countP_append]
    have h1 : 1 ≤ msgs.countP (fun m => !m.isComplete) := by
      simp only [hasPendingEntry, List.any_eq_true] at h
      obtain ⟨m, hm, hflag⟩ := h
      exact List.countP_pos_iff.mpr ⟨m, hm, hflag⟩
    have h2 : ([⟨displayTextFor text files images, .user, true, none⟩,
        (⟨[], .bot, false, none⟩ : ChatMessage)]).countP
          (fun m => !m.isComplete) = 1 := rfl
    omega

/-- Witness for `appendUser_unconditional_append`, applied to a state that
already holds one pending bot entry. -/
theorem appendUser_unconditional_append_witness :
    appendUserAndPending [⟨str "hi", .user, true, none⟩,
        ⟨[], .bot, false, none⟩] (str "again") [] []
      = [⟨str "hi", .user, true, none⟩, ⟨[], .bot, false, none⟩,
         ⟨str "again", .user, true, none⟩, ⟨[], .bot, false, none⟩] ∧
    2 ≤ (appendUserAndPending [⟨str "hi", .user, true, none⟩,
          ⟨[], .bot, false, none⟩] (str "again") [] []).countP
            (fun m => !m.isComplete) := by
  have h := appendUser_unconditional_append
    [⟨str "hi", .user, true, none⟩, ⟨[], .bot, false, none⟩]
    (str "again") [] [] (by decide)
  exact ⟨h.1, h.2.2⟩

/-! ## Directory snapshot builder (`src/src/extension.ts`, lines 1482-1567)

A directory's `fs.readdirSync` outcome is part of the modelled file-system
value: a directory node carries either an error message or its entry list.
`localeCompare` is modelled as code-point lexicographic comparison and the
comparator-based `Array.prototype.sort` as an insertion sort over the
comparator's order (directories first, then by name); no claim depends on
the precise tie-breaking of the host sort. -/

/-- One directory entry: a plain file, or a directory carrying its own
listing outcome. -/
inductive FSEntry where
  | file (name : List Char)
  | dir (name : List Char) (listing : Except (List Char) (List FSEntry))

/-- The entry's name. -/
def entryName : FSEntry → List Char
  | .file n => n
  | .dir n _ => n

/-- Whether the entry is a directory (`Dirent.isDirectory`). -/
def isDirEntry : FSEntry → Bool
  | .file _ => false
  | .dir _ _ => true

/-- Code-point lexicographic order on names (model of `localeCompare`). -/
def nameLE : List Char → List Char → Bool
  | [], _ => true
  | _ :: _, [] => false
  | a :: as, b :: bs =>
      if a.toNat < b.toNat then true
      else if b.toNat < a.toNat then false
      else nameLE as bs

/-- The comparator of lines 1523-1527: directories before files, then by
name. -/
def entryLE (a b : FSEntry) : Bool :=
  match isDirEntry a, isDirEntry b with
  | true, false => true
  | false, true => false
  | _, _ => nameLE (entryName a) (entryName b)

/-- Insertion step for the sort model. -/
def insertEntry (x : FSEntry) : List FSEntry → List FSEntry
  | [] => [x]
  | y :: ys => if entryLE x y then x :: y :: ys else y :: insertEntry x ys

/-- The sorted entry list (`entries.sort(comparator)`). -/
def sortEntries : List FSEntry → List FSEntry
  | [] => []
  | x :: xs => insertEntry x (sortEntries xs)

/-- The fixed exclusion set of line 1530. -/
def dirsToSkip : List (List Char) :=
  [str "node_modules", str ".git", str "dist", str ".vscode"]

/-- The skip test of lines 1538-1543: hidden names, and excluded directory
names. -/
def skipEntry (e : FSEntry) : Bool :=
  (match entryName e with
   | '.' :: _ => true
   | _ => false)
  || (isDirEntry e && dirsToSkip.contains (entryName e))

/-- The loop body of lines 1533-1561, abstracted over the recursive call
applied to subdirectories (`rec` receives the listing and the new indent).
`isLast` is the source's `i === sortedEntries.length - 1`, tested before
(and regardless of) the skip test. -/
def buildTreeEntriesWith
    (rec : Except (List Char) (List FSEntry) → List Char → List Char) :
    List FSEntry → List Char → List Char
  | [], _ => []
  | e :: rest, indent =>
      let isLast := rest.isEmpty
      if skipEntry e then buildTreeEntriesWith rec rest indent
      else
        (indent ++ (if isLast then str "└── " else str "├── ")
          ++ entryName e ++ (if isDirEntry e then str "/" else []) ++ str "\n")
        ++ (match e with
            | .file _ => []
            | .dir _ listing =>
                rec listing (indent ++ (if isLast then str "    " else str "│   ")))
        ++ buildTreeEntriesWith rec rest indent

/-- The recursion of `_buildTreeForPath` indexed by the remaining depth
budget `maxDepth + 1 - currentDepth`: budget 0 is the `currentDepth >
maxDepth` guard of line 1513, a read failure renders the inline error leaf
of line 1563, and otherwise the sorted entries are processed with the
budget decremented for subdirectories. -/
def buildTreeGo : Nat → Except (List Char) (List FSEntry) → List Char → List Char
  | 0, _, indent => indent ++ str "├── ...(depth limit reached)\n"
  | _ + 1, .error e, indent =>
      indent ++ str "├── Error reading directory: " ++ e ++ str "\n"
  | n + 1, .ok entries, indent =>
      buildTreeEntriesWith (buildTreeGo n) (sortEntries entries) indent

/-- Embedding of `_buildTreeForPath(dirPath, currentDepth, maxDepth,
indent)` (lines 1507-1567), with the directory's listing outcome standing
for `dirPath`. -/
def buildTreeForPath (listing : Except (List Char) (List FSEntry))
    (currentDepth maxDepth : Nat) (indent : List Char) : List Char :=
  buildTreeGo (maxDepth + 1 - currentDepth) listing indent

/-- Embedding of `_generateDirectoryTree` (lines 1482-1497) over the
workspace folders, each given as a name and a root listing; traversal
starts at `currentDepth = 1`. -/
def generateDirectoryTree
    (folders : List (List Char × Except (List Char) (List FSEntry)))
    (maxDepth : Nat) : List Char :=
  if folders.isEmpty then str "No workspace folders open."
  else
    str "PROJECT STRUCTURE:\n"
    ++ (folders.map fun folder =>
          folder.1 ++ str "\n" ++ buildTreeForPath folder.2 1 maxDepth []).flatten

/-- The demonstration root of the C9 scenario: `sub/deep/file.txt`. -/
def demoRoot : Except (List Char) (List FSEntry) :=
  .ok [.dir (str "sub")
        (.ok [.dir (str "deep") (.ok [.file (str "file.txt")])])]

/-- C9: building the tree with `maxDepth = 1` over a root containing
`sub/deep/file.txt` renders the node for `sub` followed by exactly the
depth-limit sentinel as its sole child content; the name `deep` never
appears, so the traversal does not descend into it; and in general a call
whose `currentDepth` exceeds `maxDepth` renders only the sentinel leaf. -/
theorem depthLimit_sentinel_spec :
    buildTreeForPath demoRoot 1 1 []
      = str "└── sub/\n    ├── ...(depth limit reached)\n" ∧
    listIncludes (buildTreeForPath demoRoot 1 1 []) (str "deep") = false ∧
    generateDirectoryTree [(str "root", demoRoot)] 1
      = str "PROJECT STRUCTURE:\nroot\n└── sub/\n    ├── ...(depth limit reached)\n" ∧
    (∀ (listing : Except (List Char) (List FSEntry)) (d maxD : Nat)
        (indent : List Char), maxD < d →
      buildTreeForPath listing d maxD indent
        = indent ++ str "├── ...(depth limit reached)\n") := by
  refine ⟨rfl, by decide, rfl, ?_⟩
  intro listing d maxD indent hlt
  have h0 : maxD + 1 - d = 0 := by omega
  show buildTreeGo (maxD + 1 - d) listing indent = _
  rw [h0]
  rfl

/-- Witness for `depthLimit_sentinel_spec`: the general sentinel clause at
depth 3 with `maxDepth = 2`. -/
theorem depthLimit_sentinel_spec_witness :
    buildTreeForPath (.ok []) 3 2 (str "  ")
      = str "  " ++ str "├── ...(depth limit reached)\n" :=
  depthLimit_sentinel_spec.2.2.2 (.ok []) 3 2 (str "  ") (by decide)

/-! ## `processInput` (`src/src/read_file_data.ts`, lines 4-29)

The regex `/@(\S+)/` matches, at the leftmost position possible, an `@`
immediately followed by a maximal non-empty run of non-whitespace
characters; `match[0]` is the `@` plus the run and `match[1]` the run.
`input.replace(match[0], '')` removes the first occurrence of that string
(which is exactly the matched span, since any earlier occurrence would be
an earlier regex match), and `.trim()` strips surrounding whitespace.
`fs.readFileSync(path.normalize(filePath))` is modelled as an oracle
`readFile` from the (normalisation-irrelevant) path to its outcome, the
error case carrying the stringified exception text. -/

/-- The whitespace class of the regex `\s` / `String.prototype.trim`
(ASCII part; the claims involve only ASCII inputs). -/
def isSpaceJS (c : Char) : Bool :=
  c == ' ' || c == '\t' || c == '\n' || c == '\r' || c == '\x0b' || c == '\x0c'

/-- Model of `String.prototype.trim`. -/
def trimJS (s : List Char) : List Char :=
  ((s.dropWhile isSpaceJS).reverse.dropWhile isSpaceJS).reverse

/-- The first match of `/@(\S+)/`: scan for an `@` immediately followed by
at least one non-whitespace character and return that maximal run (the
capture `match[1]`), or `none` when the regex does not match. -/
def findAtMatch : List Char → Option (List Char)
  | [] => none
  | c :: rest =>
      if c = '@' then
        let run := rest.takeWhile fun d => !isSpaceJS d
        if run.isEmpty then findAtMatch rest else some run
      else findAtMatch rest

/-- Model of `String.prototype.replace` with a plain-string pattern:
remove the first occurrence of `pat`. -/
def removeFirst (pat : List Char) : List Char → List Char
  | [] => []
  | c :: rest =>
      if pat.isPrefixOf (c :: rest) then (c :: rest).drop pat.length
      else c :: removeFirst pat rest

/-- Embedding of `processInput`: fail when the regex does not match;
otherwise read the named file — failing with the wrapped message when the
read fails — and return the content together with the input minus the
matched `@`-run, trimmed. -/
def processInput (readFile : List Char → Except (List Char) (List Char))
    (input : List Char) : Except (List Char) (List Char × List Char) :=
  match findAtMatch input with
  | none => .error (str "No file path found in the input.")
  | some run =>
      let filePath := run
      let remainingText := trimJS (removeFirst ('@' :: run) input)
      match readFile filePath with
      | .error e =>
          .error (str "Failed to read file at " ++ filePath ++ str ": " ++ e)
      | .ok content => .ok (content, remainingText)

/-- The whitespace-delimited tokens of a string (the claim's vocabulary). -/
def tokens (s : List Char) : List (List Char) :=
  (s.splitOnP isSpaceJS).filter fun t => !t.isEmpty

/-- Whether a token starts with the `@` character. -/
def startsWithAt : List Char → Bool
  | '@' :: _ => true
  | _ => false

/-- The input has no `@` immediately followed by a non-whitespace
character (equivalently, the regex `/@(\S+)/` cannot match). -/
def noAtRun (s : List Char) : Bool :=
  (s.zip s.tail).all fun p => !(p.1 == '@' && !isSpaceJS p.2)

theorem noAtRun_findAtMatch (s : List Char) (h : noAtRun s = true) :
    findAtMatch s = none := by
  induction s with
  | nil => rfl
  | cons c rest ih =>
      cases rest with
      | nil =>
          by_cases hc : c = '@'
          · subst hc; rfl
          · simp [findAtMatch, hc]
      | cons d rs =>
          simp only [noAtRun, List.tail_cons, List.zip_cons_cons,
            List.all_cons, Bool.and_eq_true] at h
          obtain ⟨hpair, htail⟩ := h
          have htail' : noAtRun (d :: rs) = true := by
            simp only [noAtRun, List.tail_cons]
            exact htail
          by_cases hc : c = '@'
          · subst hc
            simp only [beq_self_eq_true, Bool.true_and, Bool.not_eq_eq_eq_not,
              Bool.not_true, Bool.not_eq_false'] at hpair
            have hrun : ((d :: rs).takeWhile fun x => !isSpaceJS x) = [] := by
              simp [List.takeWhile_cons, hpair]
            simp only [findAtMatch, if_pos rfl, hrun, List.isEmpty_nil, if_pos]
            exact ih htail'
          · simp only [findAtMatch, if_neg hc]
            exact ih htail'

/-- The C10 demonstration oracle: only the file `b` is readable. -/
def demoReadFile : List Char → Except (List Char) (List Char) :=
  fun p => if p = str "b" then .ok (str "B") else .error (str "ENOENT")

/-- C10 counterexample: the input `"a@b c"` contains no whitespace-
delimited token starting with `@` (its tokens are `a@b` and `c`), yet
`processInput` does not throw — the regex matches the `@b` inside `a@b`,
the file `b` is read, and the call returns its content with `@b` removed
from the input. -/
theorem processInput_atToken_counterexample :
    ((tokens (str "a@b c")).all fun t => !startsWithAt t) = true ∧
    processInput demoReadFile (str "a@b c") = .ok (str "B", str "a c") :=
  ⟨by decide, rfl⟩

/-- C10 (amended): `processInput` keys on occurrences of `@` immediately
followed by a non-whitespace character (anywhere, not only at token
starts).  When the input has no such occurrence it throws `No file path
found`; otherwise the maximal non-whitespace run after the first such `@`
names the file: on a successful read it returns the content together with
the input minus the first occurrence of the `@`-run, trimmed, and on a
failed read it throws the wrapped read error. -/
theorem processInput_match_spec
    (readFile : List Char → Except (List Char) (List Char))
    (input : List Char) :
    (noAtRun input = true →
      processInput readFile input
        = .error (str "No file path found in the input.")) ∧
    (∀ run content, findAtMatch input = some run →
      readFile run = .ok content →
      processInput readFile input
        = .ok (content, trimJS (removeFirst ('@' :: run) input))) ∧
    (∀ run e, findAtMatch input = some run → readFile run = .error e →
      processInput readFile input
        = .error (str "Failed to read file at " ++ run ++ str ": " ++ e)) := by
  refine ⟨?_, ?_, ?_⟩
  · intro h
    simp only [processInput, noAtRun_findAtMatch input h]
  · intro run content h1 h2
    simp only [processInput, h1, h2]
  · intro run e h1 h2
    simp only [processInput, h1, h2]

/-- Witness for `processInput_match_spec` covering all three clauses at
concrete inputs. -/
theorem processInput_match_spec_witness :
    processInput demoReadFile (str "hello")
      = .error (str "No file path found in the input.") ∧
    processInput demoReadFile (str "x @b y") = .ok (str "B", str "x  y") ∧
    processInput demoReadFile (str "x @nope")
      = .error (str "Failed to read file at nope: ENOENT") := by
  have h1 := (processInput_match_spec demoReadFile (str "hello")).1 (by decide)
  have h2 := (processInput_match_spec demoReadFile (str "x @b y")).2.1
    (str "b") (str "B") (by decide) rfl
  have h3 := (processInput_match_spec demoReadFile (str "x @nope")).2.2
    (str "nope") (str "ENOENT") (by decide) rfl
  exact ⟨h1, h2, h3⟩

end Chatbot
